import Mathlib

/-
  Verification development for the turnip-price inference engine
  (range utilities, compensated summation, the discrete rate PDF, the four
  pattern generators and the inference driver `analyzePossibilities`).

  JS `number` values are modelled as exact rationals (ℚ); a missing
  observation (`NaN` sentinel in a price slot) is modelled as `Option ℚ`
  with `none` for `NaN`.  Mutation is modelled by explicit state passing:
  a method that mutates an object and returns a value becomes a function
  returning a pair; generator functions return the list of their yields.
  A thrown exception is modelled with `Except String`.  `Math.log` (used
  only in the peak-price probability) is an explicit function parameter
  `log : ℚ → ℚ` threaded through the definitions, so every theorem holds
  for any interpretation of it.
-/

namespace ACNH

/-- JS Math.round: round half toward positive infinity. -/
def jsRound (q : ℚ) : ℤ := ⌊q + 1/2⌋

/-- JS Math.trunc: drop the fractional part, rounding toward zero. -/
def jsTrunc (q : ℚ) : ℤ := if 0 ≤ q then ⌊q⌋ else ⌈q⌉

/-- A numeric interval, as the 2-element arrays used by the source. -/
abbrev Range := ℚ × ℚ

/-- utils: rangeLength on a non-null range. -/
def rangeLength (r : Range) : ℚ := r.2 - r.1

/-- utils: rangeLength applied to a possibly-null range (null has length 0). -/
def rangeLengthN : Option Range → ℚ
  | none => 0
  | some r => rangeLength r

/-- utils: rangeIntersect, `null` (none) when the ranges do not overlap. -/
def rangeIntersect (r1 r2 : Range) : Option Range :=
  if r1.1 > r2.2 ∨ r1.2 < r2.1 then none
  else some (max r1.1 r2.1, min r1.2 r2.2)

/-- utils: rangeIntersectLength, zero when the ranges do not overlap. -/
def rangeIntersectLength (r1 r2 : Range) : ℚ :=
  if r1.1 > r2.2 ∨ r1.2 < r2.1 then 0
  else rangeLengthN (rangeIntersect r1 r2)

/-- utils: clamp(x, min, max). -/
def clamp (x lo hi : ℚ) : ℚ := min (max x lo) hi

/-- utils: the accumulation loop of floatSum (Neumaier compensated sum):
`sum` is the running sum, `c` the accumulated compensation. -/
def floatSumGo : ℚ → ℚ → List ℚ → ℚ
  | sum, c, [] => sum + c
  | sum, c, cur :: rest =>
    let t := sum + cur
    if |sum| ≥ |cur| then floatSumGo t (c + (sum - t + cur)) rest
    else floatSumGo t (c + (cur - t + sum)) rest

/-- utils: floatSum. -/
def floatSum (input : List ℚ) : ℚ := floatSumGo 0 0 input

/-- utils: the loop of prefixFloatSum, emitting the (sum, compensation)
pair after each step. -/
def prefixFloatSumGo : ℚ → ℚ → List ℚ → List (ℚ × ℚ)
  | _, _, [] => []
  | sum, c, cur :: rest =>
    let t := sum + cur
    let c2 := if |sum| ≥ |cur| then c + (sum - t + cur) else c + (cur - t + sum)
    (t, c2) :: prefixFloatSumGo t c2 rest

/-- utils: prefixFloatSum; index 0 holds (0, 0). -/
def prefixFloatSum (input : List ℚ) : List (ℚ × ℚ) :=
  (0, 0) :: prefixFloatSumGo 0 0 input

/-- The discrete PDF over integer bins of the scaled rate axis:
`prob` has one entry per unit bin of `[valueStart, valueEnd)`. -/
structure PDF where
  valueStart : ℤ
  valueEnd : ℤ
  prob : List ℚ
deriving DecidableEq

/-- The interval represented by prob[idx] (`range_of` on a value start). -/
def rangeOf (valueStart : ℤ) (idx : ℕ) : Range :=
  (((valueStart + idx : ℤ) : ℚ), ((valueStart + idx + 1 : ℤ) : ℚ))

/-- PDF.range_of. -/
def PDF.range_of (p : PDF) (idx : ℕ) : Range := rangeOf p.valueStart idx

/-- PDF.min_value. -/
def PDF.min_value (p : PDF) : ℤ := p.valueStart

/-- PDF.max_value. -/
def PDF.max_value (p : PDF) : ℤ := p.valueEnd

/-- The probability array as the constructor builds it, entry by entry as
JS reads it: `Array(valueEnd - valueStart)` allocates unfilled slots,
each reading as undefined (none); the fill loop runs only under
`uniform`, writing `intersect_length(bin, [a,b]) / (b - a)` (some) into
every slot. -/
def PDF.new_prob_entries (a b : ℚ) (uniform : Bool) : List (Option ℚ) :=
  let valueStart := ⌊a⌋
  let valueEnd := ⌈b⌉
  let range : Range := (a, b)
  let total_length := rangeLength range
  let n := (valueEnd - valueStart).toNat
  if uniform then
    (List.range n).map (fun (i : ℕ) =>
      some (rangeIntersectLength (rangeOf valueStart i) range / total_length))
  else
    List.replicate n none

/-- The PDF constructor: valueStart = floor a, valueEnd = ceil b, and the
entry array of `PDF.new_prob_entries`.  The engine stores the numeric
view of the entries: a filled entry is taken verbatim; a hole has no
numeric value in JS (undefined), and since the engine only ever
constructs uniform PDFs — whose entries are all filled — the numeric
default of the projection is never read by it. -/
def PDF.new (a b : ℚ) (uniform : Bool) : PDF :=
  { valueStart := ⌊a⌋
    valueEnd := ⌈b⌉
    prob := (PDF.new_prob_entries a b uniform).map (fun x => x.getD 0) }

/-- PDF.range_limit: clip the range to the support, multiply the surviving
bins by their overlap with the range, slice, normalize; returns the
pre-normalization total mass together with the updated PDF.  The source
mutates `this` and returns the scalar; here the pair is returned. -/
def PDF.range_limit (p : PDF) (range : Range) : ℚ × PDF :=
  let start := max range.1 ((p.min_value : ℤ) : ℚ)
  let endv := min range.2 ((p.max_value : ℤ) : ℚ)
  if endv ≤ start then
    (0, { valueStart := 0, valueEnd := 0, prob := [] })
  else
    let start2 := ⌊start⌋
    let endv2 := ⌈endv⌉
    let start_idx := (start2 - p.valueStart).toNat
    let end_idx := (endv2 - p.valueStart).toNat
    let prob2 := (List.range (end_idx - start_idx)).map (fun (j : ℕ) =>
      p.prob.getD (start_idx + j) 0 *
        rangeIntersectLength (rangeOf p.valueStart (start_idx + j)) range)
    let total_probability := floatSum prob2
    (total_probability,
      { valueStart := start2, valueEnd := endv2,
        prob := prob2.map (fun x => x / total_probability) })

/-- PDF.decay: convolution with (minus) a uniform distribution on
`[rate_decay_min, rate_decay_max]` (arguments rounded to integers),
computed via the compensated prefix sum with halved end bins. -/
def PDF.decay (p : PDF) (rate_decay_min rate_decay_max : ℚ) : PDF :=
  let rdMin := jsRound rate_decay_min
  let rdMax := jsRound rate_decay_max
  let pre := prefixFloatSum p.prob
  let maxX : ℤ := p.prob.length
  let maxY : ℤ := rdMax - rdMin
  let newLen := (maxX + maxY).toNat
  let newProb := (List.range newLen).map (fun (i : ℕ) =>
    let left := max 0 ((i : ℤ) - maxY)
    let right := min (maxX - 1) (i : ℤ)
    let base := [(pre.getD (right + 1).toNat (0, 0)).1, (pre.getD (right + 1).toNat (0, 0)).2,
      -(pre.getD left.toNat (0, 0)).1, -(pre.getD left.toNat (0, 0)).2]
    let withLeft := base ++ (if left = (i : ℤ) - maxY then [-(p.prob.getD left.toNat 0) / 2] else [])
    let numbers_to_sum :=
      withLeft ++ (if right = (i : ℤ) then [-(p.prob.getD right.toNat 0) / 2] else [])
    floatSum numbers_to_sum / (maxY : ℚ))
  { valueStart := p.valueStart - rdMax
    valueEnd := p.valueEnd - rdMin
    prob := newProb }

/-
  The Predictor: phase generators, pattern generators and the driver.
  `fudge` is the current fudge factor (the class field fudgeFactor),
  `log` the Math.log parameter, and `gp : GP` the observation vector
  with `none` for the NaN sentinel.
-/

/-- An observation vector: one entry per half-day slot, none = NaN. -/
abbrev GP := List (Option ℚ)

/-- One predicted slot: an inclusive price interval. -/
structure MinMax where
  min : ℚ
  max : ℚ
deriving DecidableEq

/-- RATE_MULTIPLIER: rates are handled on the x10000 scale. -/
def RATE_MULTIPLIER : ℚ := 10000

/-- Predictor.intCeil: trunc(val + 0.99999), NOT ceil. -/
def intCeil (val : ℚ) : ℤ := jsTrunc (val + 99999/100000)

/-- Predictor.minimum_rate_from_given_and_base. -/
def minimum_rate_from_given_and_base (given_price buy_price : ℚ) : ℚ :=
  RATE_MULTIPLIER * (given_price - 99999/100000) / buy_price

/-- Predictor.maximum_rate_from_given_and_base. -/
def maximum_rate_from_given_and_base (given_price buy_price : ℚ) : ℚ :=
  RATE_MULTIPLIER * (given_price + 1/100000) / buy_price

/-- Predictor.rate_range_from_given_and_base. -/
def rate_range_from_given_and_base (given_price buy_price : ℚ) : Range :=
  (minimum_rate_from_given_and_base given_price buy_price,
   maximum_rate_from_given_and_base given_price buy_price)

/-- Predictor.get_price: intCeil(rate * basePrice / RATE_MULTIPLIER). -/
def get_price (rate basePrice : ℚ) : ℤ :=
  intCeil (rate * basePrice / RATE_MULTIPLIER)

/-- Reading slot i of the observation vector (reads past the end are not
exercised: all vectors have 14 slots). -/
def getObs (gp : GP) (i : ℕ) : Option ℚ := gp.getD i none

/-- The buy price given_prices[0]; the drivers guarantee it is present. -/
def getBuy (gp : GP) : ℚ := (getObs gp 0).getD 0

/-- The loop of generate_individual_random_price: iterates slots
i, i+1, ... while `len` counts the remaining slots; `prob` is the product
so far and `pp` the predicted_prices buffer (appended at the end).  On an
out-of-envelope observation the whole call returns probability 0. -/
def girpGo (fudge : ℚ) (gp : GP) (rate_min rate_max buy_price : ℚ) :
    ℕ → ℕ → ℚ → List MinMax → ℚ × List MinMax
  | _, 0, prob, pp => (prob, pp)
  | i, Nat.succ len, prob, pp =>
    let min_pred := get_price rate_min buy_price
    let max_pred := get_price rate_max buy_price
    match getObs gp i with
    | none =>
      girpGo fudge gp rate_min rate_max buy_price (i + 1) len prob
        (pp ++ [⟨(min_pred : ℚ), (max_pred : ℚ)⟩])
    | some price =>
      if price < (min_pred : ℚ) - fudge ∨ price > (max_pred : ℚ) + fudge then (0, pp)
      else
        let real_rate_range :=
          rate_range_from_given_and_base (clamp price (min_pred : ℚ) (max_pred : ℚ)) buy_price
        let prob2 := prob *
          (rangeIntersectLength (rate_min, rate_max) real_rate_range /
            rangeLength (rate_min, rate_max))
        girpGo fudge gp rate_min rate_max buy_price (i + 1) len prob2 (pp ++ [⟨price, price⟩])

/-- generate_individual_random_price: `length` i.i.d.-uniform slots from
`start`; returns the conditional probability and the extended buffer. -/
def generate_individual_random_price (fudge : ℚ) (gp : GP) (pp : List MinMax)
    (start length : ℕ) (rate_min rate_max : ℚ) : ℚ × List MinMax :=
  girpGo fudge gp (rate_min * RATE_MULTIPLIER) (rate_max * RATE_MULTIPLIER)
    (getBuy gp) start length 1 pp

/-- The loop of generate_decreasing_random_price: each slot reads the
envelope off the evolving rate PDF, conditions it on an observation via
range_limit, pushes the slot interval and then decays the PDF. -/
def gdrpGo (fudge : ℚ) (gp : GP) (buy_price rdMin rdMax : ℚ) :
    ℕ → ℕ → PDF → ℚ → List MinMax → ℚ × List MinMax
  | _, 0, _, prob, pp => (prob, pp)
  | i, Nat.succ len, rate_pdf, prob, pp =>
    let min_pred := get_price ((rate_pdf.min_value : ℤ) : ℚ) buy_price
    let max_pred := get_price ((rate_pdf.max_value : ℤ) : ℚ) buy_price
    match getObs gp i with
    | none =>
      gdrpGo fudge gp buy_price rdMin rdMax (i + 1) len (rate_pdf.decay rdMin rdMax) prob
        (pp ++ [⟨(min_pred : ℚ), (max_pred : ℚ)⟩])
    | some price =>
      if price < (min_pred : ℚ) - fudge ∨ price > (max_pred : ℚ) + fudge then (0, pp)
      else
        let real_rate_range :=
          rate_range_from_given_and_base (clamp price (min_pred : ℚ) (max_pred : ℚ)) buy_price
        let r := rate_pdf.range_limit real_rate_range
        let prob2 := prob * r.1
        if prob2 = 0 then (0, pp)
        else
          gdrpGo fudge gp buy_price rdMin rdMax (i + 1) len (r.2.decay rdMin rdMax) prob2
            (pp ++ [⟨price, price⟩])

/-- generate_decreasing_random_price: a start rate drawn uniform and
decayed by a uniform step each slot, tracked via the PDF. -/
def generate_decreasing_random_price (fudge : ℚ) (gp : GP) (pp : List MinMax)
    (start length : ℕ)
    (start_rate_min start_rate_max rate_decay_min rate_decay_max : ℚ) : ℚ × List MinMax :=
  gdrpGo fudge gp (getBuy gp)
    (rate_decay_min * RATE_MULTIPLIER) (rate_decay_max * RATE_MULTIPLIER)
    start length
    (PDF.new (start_rate_min * RATE_MULTIPLIER) (start_rate_max * RATE_MULTIPLIER) true)
    1 pp

/-- The F function of the peak-price probability: 0 for t <= 0, ZZ when
ZZ < t, else t - t (log t - log ZZ); `log` abstracts Math.log. -/
def peakF (log : ℚ → ℚ) (t ZZ : ℚ) : ℚ :=
  if t ≤ 0 then 0 else if ZZ < t then ZZ else t - t * (log t - log ZZ)

/-- The per-side (left/right) observation step of generate_peak_price:
none encodes the early return with probability 0. -/
def peakLR (log : ℚ → ℚ) (fudge buy_price rate_min : ℚ) (rate_range : Range)
    (priceObs : Option ℚ) (prob : ℚ) : Option ℚ :=
  match priceObs with
  | none => some prob
  | some price =>
    let min_pred := get_price rate_min buy_price - 1
    let max_pred := get_price rate_range.2 buy_price - 1
    if price < (min_pred : ℚ) - fudge ∨ price > (max_pred : ℚ) + fudge then none
    else
      let rate2_range :=
        rate_range_from_given_and_base (clamp price (min_pred : ℚ) (max_pred : ℚ) + 1) buy_price
      let Z1 := rate_range.1 - rate_min
      let Z2 := rate_range.2 - rate_min
      let PY := fun (t : ℚ) =>
        (peakF log (t - rate_min) Z2 - peakF log (t - rate_min) Z1) / (Z2 - Z1)
      let prob2 := prob * (PY rate2_range.2 - PY rate2_range.1)
      if prob2 = 0 then none else some prob2

/-- generate_peak_price: the three-slot nested-uniform peak.  Probability
is computed first (middle, then left and right given the middle), the
three MinMax entries are emitted after.  The JS fallback
`rangeIntersect(...) ?? []` is unreachable when the middle probability is
nonzero; it is modelled with the default (0, 0). -/
def generate_peak_price (log : ℚ → ℚ) (fudge : ℚ) (gp : GP) (pp : List MinMax)
    (start : ℕ) (rate_min0 rate_max0 : ℚ) : ℚ × List MinMax :=
  let rate_min := rate_min0 * RATE_MULTIPLIER
  let rate_max := rate_max0 * RATE_MULTIPLIER
  let buy_price := getBuy gp
  let step1 : Option (ℚ × Range) :=
    match getObs gp (start + 1) with
    | none => some (1, (rate_min, rate_max))
    | some middle_price =>
      let min_pred := get_price rate_min buy_price
      let max_pred := get_price rate_max buy_price
      if middle_price < (min_pred : ℚ) - fudge ∨ middle_price > (max_pred : ℚ) + fudge then none
      else
        let real_rate_range :=
          rate_range_from_given_and_base (clamp middle_price (min_pred : ℚ) (max_pred : ℚ)) buy_price
        let prob := 1 *
          (rangeIntersectLength (rate_min, rate_max) real_rate_range /
            rangeLength (rate_min, rate_max))
        if prob = 0 then none
        else some (prob, (rangeIntersect (rate_min, rate_max) real_rate_range).getD (0, 0))
  match step1 with
  | none => (0, pp)
  | some s1 =>
    match peakLR log fudge buy_price rate_min s1.2 (getObs gp start) s1.1 with
    | none => (0, pp)
    | some probL =>
      match peakLR log fudge buy_price rate_min s1.2 (getObs gp (start + 2)) probL with
      | none => (0, pp)
      | some probR =>
        let e1 : MinMax :=
          match getObs gp start with
          | some q => ⟨q, q⟩
          | none => ⟨((get_price rate_min buy_price - 1 : ℤ) : ℚ),
                     ((get_price rate_max buy_price - 1 : ℤ) : ℚ)⟩
        let pp1 := pp ++ [e1]
        let e2 : MinMax :=
          match getObs gp (start + 1) with
          | some q => ⟨q, q⟩
          | none => ⟨(pp1.getD start ⟨0, 0⟩).min, ((get_price rate_max buy_price : ℤ) : ℚ)⟩
        let pp2 := pp1 ++ [e2]
        let e3 : MinMax :=
          match getObs gp (start + 2) with
          | some q => ⟨q, q⟩
          | none => ⟨((get_price rate_min buy_price - 1 : ℤ) : ℚ),
                     (pp2.getD (start + 1) ⟨0, 0⟩).max - 1⟩
        (probR, pp2 ++ [e3])

/-- One yielded scenario of a pattern generator. -/
structure Scenario where
  patternNumber : ℕ
  patternName : String
  prices : List MinMax
  probability : ℚ
deriving DecidableEq

/-- Predictor.multiply_generator_probability: forward each yielded item
with its probability multiplied by the given factor, all other fields
unchanged (the object spread). -/
def multiply_generator_probability (generator : List Scenario) (probability : ℚ) : List Scenario :=
  generator.map (fun it => { it with probability := it.probability * probability })

/-- Concatenation of a list of possibly-throwing generator runs, with the
first thrown exception propagating (and yields before it discarded, as
Array.from does). -/
def exFlat : List (Except String (List Scenario)) → Except String (List Scenario)
  | [] => .ok []
  | e :: rest =>
    match e with
    | .error s => .error s
    | .ok l =>
      match exFlat rest with
      | .error s => .error s
      | .ok l2 => .ok (l ++ l2)

/-- generate_pattern_0_with_lengths: high1, dec1, high2, dec2, high3;
throws when the phase lengths (plus the 2 buy slots) do not sum to 14.
The thrown message matches the source text up to its dropped apostrophe. -/
def generate_pattern_0_with_lengths (fudge : ℚ) (gp : GP)
    (high_phase_1_len dec_phase_1_len high_phase_2_len dec_phase_2_len high_phase_3_len : ℕ) :
    Except String (List Scenario) :=
  let buy_price := getBuy gp
  let pp0 : List MinMax := [⟨buy_price, buy_price⟩, ⟨buy_price, buy_price⟩]
  let r1 := generate_individual_random_price fudge gp pp0 2 high_phase_1_len (9/10) (14/10)
  let prob1 := 1 * r1.1
  if prob1 = 0 then .ok []
  else
    let r2 := generate_decreasing_random_price fudge gp r1.2
      (2 + high_phase_1_len) dec_phase_1_len (6/10) (8/10) (4/100) (1/10)
    let prob2 := prob1 * r2.1
    if prob2 = 0 then .ok []
    else
      let r3 := generate_individual_random_price fudge gp r2.2
        (2 + high_phase_1_len + dec_phase_1_len) high_phase_2_len (9/10) (14/10)
      let prob3 := prob2 * r3.1
      if prob3 = 0 then .ok []
      else
        let r4 := generate_decreasing_random_price fudge gp r3.2
          (2 + high_phase_1_len + dec_phase_1_len + high_phase_2_len) dec_phase_2_len
          (6/10) (8/10) (4/100) (1/10)
        let prob4 := prob3 * r4.1
        if prob4 = 0 then .ok []
        else
          if 2 + high_phase_1_len + dec_phase_1_len + high_phase_2_len + dec_phase_2_len +
              high_phase_3_len ≠ 14 then
            .error "Phase lengths do not add up"
          else
            let prev_length := 2 + high_phase_1_len + dec_phase_1_len + high_phase_2_len +
              dec_phase_2_len
            let r5 := generate_individual_random_price fudge gp r4.2
              prev_length (14 - prev_length) (9/10) (14/10)
            let prob5 := prob4 * r5.1
            if prob5 = 0 then .ok []
            else .ok [{ patternNumber := 0, patternName := "FLUCTUATING",
                        prices := r5.2, probability := prob5 }]

/-- generate_pattern_0: enumerate dec1 in 2..3, high1 in 0..6,
high3 in 0..(7 - high1 - 1), pass high2 = 7 - high1 - high3 and
dec2 = 5 - dec1, weighting by the uniform prior over the hidden
parameters. -/
def generate_pattern_0 (fudge : ℚ) (gp : GP) : Except String (List Scenario) :=
  exFlat ((List.range' 2 2).flatMap (fun (dec_phase_1_len : ℕ) =>
    (List.range 7).flatMap (fun (high_phase_1_len : ℕ) =>
      (List.range (7 - high_phase_1_len - 1 + 1)).map (fun (high_phase_3_len : ℕ) =>
        Except.map
          (fun l => multiply_generator_probability l
            (1 / ((4 : ℚ) - 2) / 7 / (7 - (high_phase_1_len : ℚ))))
          (generate_pattern_0_with_lengths fudge gp
            high_phase_1_len dec_phase_1_len
            (7 - high_phase_1_len - high_phase_3_len) (5 - dec_phase_1_len)
            high_phase_3_len)))))

/-- The fixed per-slot uniform bands of pattern 1 after the peak start. -/
def p1MinRandoms : List ℚ := [9/10, 14/10, 2, 14/10, 9/10, 4/10, 4/10, 4/10, 4/10, 4/10, 4/10]

/-- The matching upper bands of pattern 1. -/
def p1MaxRandoms : List ℚ := [14/10, 2, 6, 2, 14/10, 9/10, 9/10, 9/10, 9/10, 9/10, 9/10]

/-- The per-slot loop of pattern 1 after the peak start: one individual
uniform slot per index, with the banded rates. -/
def p1Go (fudge : ℚ) (gp : GP) (peak_start : ℕ) :
    List ℕ → ℚ → List MinMax → ℚ × List MinMax
  | [], prob, pp => (prob, pp)
  | i :: rest, prob, pp =>
    let r := generate_individual_random_price fudge gp pp i 1
      (p1MinRandoms.getD (i - peak_start) 0) (p1MaxRandoms.getD (i - peak_start) 0)
    let prob2 := prob * r.1
    if prob2 = 0 then (0, pp) else p1Go fudge gp peak_start rest prob2 r.2

/-- generate_pattern_1_with_peak: decay up to the peak start, then the
banded independent slots to the end of the week. -/
def generate_pattern_1_with_peak (fudge : ℚ) (gp : GP) (peak_start : ℕ) : List Scenario :=
  let buy_price := getBuy gp
  let pp0 : List MinMax := [⟨buy_price, buy_price⟩, ⟨buy_price, buy_price⟩]
  let r1 := generate_decreasing_random_price fudge gp pp0 2 (peak_start - 2)
    (85/100) (9/10) (3/100) (5/100)
  let prob1 := 1 * r1.1
  if prob1 = 0 then []
  else
    let r2 := p1Go fudge gp peak_start (List.range' peak_start (14 - peak_start)) prob1 r1.2
    if r2.1 = 0 then []
    else [{ patternNumber := 1, patternName := "LARGE_SPIKE",
            prices := r2.2, probability := r2.1 }]

/-- generate_pattern_1: peak_start enumerated 3..9, uniform prior 1/7. -/
def generate_pattern_1 (fudge : ℚ) (gp : GP) : List Scenario :=
  (List.range' 3 7).flatMap (fun (peak_start : ℕ) =>
    multiply_generator_probability (generate_pattern_1_with_peak fudge gp peak_start)
      (1 / ((10 : ℚ) - 3)))

/-- generate_pattern_2: one consistent decay over slots 2..13. -/
def generate_pattern_2 (fudge : ℚ) (gp : GP) : List Scenario :=
  let buy_price := getBuy gp
  let pp0 : List MinMax := [⟨buy_price, buy_price⟩, ⟨buy_price, buy_price⟩]
  let r1 := generate_decreasing_random_price fudge gp pp0 2 (14 - 2)
    (85/100) (9/10) (3/100) (5/100)
  let prob1 := 1 * r1.1
  if prob1 = 0 then []
  else [{ patternNumber := 2, patternName := "DECREASING",
          prices := r1.2, probability := prob1 }]

/-- generate_pattern_3_with_peak: decay, two uniform slots, the 3-slot
peak, then (when slots remain) a second decay. -/
def generate_pattern_3_with_peak (log : ℚ → ℚ) (fudge : ℚ) (gp : GP) (peak_start : ℕ) :
    List Scenario :=
  let buy_price := getBuy gp
  let pp0 : List MinMax := [⟨buy_price, buy_price⟩, ⟨buy_price, buy_price⟩]
  let r1 := generate_decreasing_random_price fudge gp pp0 2 (peak_start - 2)
    (4/10) (9/10) (3/100) (5/100)
  let prob1 := 1 * r1.1
  if prob1 = 0 then []
  else
    let r2 := generate_individual_random_price fudge gp r1.2 peak_start 2 (9/10) (14/10)
    let prob2 := prob1 * r2.1
    if prob2 = 0 then []
    else
      let r3 := generate_peak_price log fudge gp r2.2 (peak_start + 2) (14/10) 2
      let prob3 := prob2 * r3.1
      if prob3 = 0 then []
      else
        if peak_start + 5 < 14 then
          let r4 := generate_decreasing_random_price fudge gp r3.2
            (peak_start + 5) (14 - (peak_start + 5)) (4/10) (9/10) (3/100) (5/100)
          let prob4 := prob3 * r4.1
          if prob4 = 0 then []
          else [{ patternNumber := 3, patternName := "SMALL_SPIKE",
                  prices := r4.2, probability := prob4 }]
        else [{ patternNumber := 3, patternName := "SMALL_SPIKE",
                prices := r3.2, probability := prob3 }]

/-- generate_pattern_3: peak_start enumerated 2..9, uniform prior 1/8. -/
def generate_pattern_3 (log : ℚ → ℚ) (fudge : ℚ) (gp : GP) : List Scenario :=
  (List.range' 2 8).flatMap (fun (peak_start : ℕ) =>
    multiply_generator_probability (generate_pattern_3_with_peak log fudge gp peak_start)
      (1 / ((10 : ℚ) - 2)))

/-- The previousPattern argument as a JS value: undefined, null, NaN or a
number. -/
inductive JSValue where
  | undef
  | null
  | nan
  | num (q : ℚ)
deriving DecidableEq

/-- The fixed steady-state row used when the previous pattern is
unknown. -/
def steadyStateRow : List ℚ := [4530/13082, 3236/13082, 1931/13082, 3385/13082]

/-- Row lookup in PROBABILITY_MATRIX, keyed by the raw number: a key
other than 0, 1, 2, 3 finds no property (JS undefined = none). -/
def probabilityMatrixLookup (q : ℚ) : Option (List ℚ) :=
  if q = 0 then some [2/10, 3/10, 15/100, 35/100]
  else if q = 1 then some [5/10, 5/100, 2/10, 25/100]
  else if q = 2 then some [25/100, 45/100, 5/100, 25/100]
  else if q = 3 then some [45/100, 25/100, 15/100, 15/100]
  else none

/-- Predictor.get_transition_probability: steady state for
undefined / NaN / null / negative / greater than 3, else the matrix
row.  The value is an Option because a non-integer key in (0, 3) finds
no matrix property (undefined). -/
def get_transition_probability (previous_pattern : JSValue) : Option (List ℚ) :=
  match previous_pattern with
  | .undef => some steadyStateRow
  | .nan => some steadyStateRow
  | .null => some steadyStateRow
  | .num q =>
    if q < 0 ∨ q > 3 then some steadyStateRow
    else probabilityMatrixLookup q

/-- generate_all_patterns: the four pattern generators weighted by the
transition row.  Indexing an undefined row throws a TypeError before any
yield; a pattern-0 phase-length throw also propagates. -/
def generate_all_patterns (log : ℚ → ℚ) (fudge : ℚ) (sell_prices : GP)
    (previous_pattern : JSValue) : Except String (List Scenario) :=
  match get_transition_probability previous_pattern with
  | none => .error "TypeError: transition probability row is undefined"
  | some tp =>
    match generate_pattern_0 fudge sell_prices with
    | .error e => .error e
    | .ok l0 =>
      .ok (multiply_generator_probability l0 (tp.getD 0 0) ++
        multiply_generator_probability (generate_pattern_1 fudge sell_prices) (tp.getD 1 0) ++
        multiply_generator_probability (generate_pattern_2 fudge sell_prices) (tp.getD 2 0) ++
        multiply_generator_probability (generate_pattern_3 log fudge sell_prices) (tp.getD 3 0))

/-- Overwrite slots 0 and 1 with a candidate buy price (the slice copy
plus the two assignments). -/
def setBuy (l : GP) (buy : ℚ) : GP := (l.set 0 (some buy)).set 1 (some buy)

/-- generate_possibilities: when firstBuy or slot 0 is missing, enumerate
buy prices 90..110 with slots 0 and 1 overwritten; under firstBuy only
pattern 3 runs (no additional weighting), otherwise all patterns. -/
def generate_possibilities (log : ℚ → ℚ) (fudge : ℚ) (sell_prices : GP)
    (first_buy : Bool) (previous_pattern : JSValue) : Except String (List Scenario) :=
  if first_buy || (getObs sell_prices 0).isNone then
    exFlat ((List.range' 90 21).map (fun (buy : ℕ) =>
      if first_buy then
        .ok (generate_pattern_3 log fudge (setBuy sell_prices (buy : ℚ)))
      else
        generate_all_patterns log fudge (setBuy sell_prices (buy : ℚ)) previous_pattern))
  else
    generate_all_patterns log fudge sell_prices previous_pattern

/-- JS numbers closed under the empty-spread Math.min / Math.max:
rationals extended with both infinities. -/
abbrev ExtQ := WithBot (WithTop ℚ)

/-- Embedding of a finite number into ExtQ. -/
def qE (q : ℚ) : ExtQ := ((q : WithTop ℚ) : ExtQ)

/-- One record of the analyzePossibilities output. -/
structure PredicationResult where
  weekGuaranteedMinimum : ExtQ
  weekMax : ExtQ
  prices : List MinMax
  patternNumber : ℕ
  patternName : String
  probability : ℚ
  categoryTotalProbability : ℚ
deriving DecidableEq

/-- The week-aggregate walk over prices[2..]: collect (min, max) pairs of
ranged slots (min different from max); a scalar slot discards everything
collected so far.  The source keeps two arrays pushed and cleared in
lockstep; they are modelled as one list of pairs. -/
def weekAccum (days : List MinMax) : List (ℚ × ℚ) :=
  days.foldl (fun acc d => if d.min ≠ d.max then acc ++ [(d.min, d.max)] else []) []

/-- The collected week pairs with the last-slot fallback when nothing was
collected. -/
def weekPairs (prices : List MinMax) : List (ℚ × ℚ) :=
  let w := weekAccum (prices.drop 2)
  if w.isEmpty then
    match prices.getLast? with
    | some mm => [(mm.min, mm.max)]
    | none => []
  else w

/-- weekGuaranteedMinimum = Math.max(...weekMins): fold from minus
infinity. -/
def wgmOf (prices : List MinMax) : ExtQ :=
  (weekPairs prices).foldl (fun acc pr => max acc (qE pr.1)) ⊥

/-- weekMax = Math.max(...weekMaxes): fold from minus infinity. -/
def wmaxOf (prices : List MinMax) : ExtQ :=
  (weekPairs prices).foldl (fun acc pr => max acc (qE pr.2)) ⊥

/-- The sort comparator (b.categoryTotalProbability - a.… ||
b.probability - a.probability) as a total boolean preorder: a sorts no
later than b when the comparator is nonpositive. -/
def scenLE (a b : PredicationResult) : Bool :=
  decide (b.categoryTotalProbability < a.categoryTotalProbability ∨
    (b.categoryTotalProbability = a.categoryTotalProbability ∧ b.probability ≤ a.probability))

/-- The normalization step: divide every probability by the reduce-sum of
all probabilities. -/
def normalizeScens (gen0 : List Scenario) : List Scenario :=
  let total_probability := gen0.foldl (fun acc it => acc + it.probability) 0
  gen0.map (fun it => { it with probability := it.probability / total_probability })

/-- The week-aggregate step: attach weekGuaranteedMinimum and weekMax to
each scenario (categoryTotalProbability still to be stamped). -/
def withWeekOf (gen : List Scenario) : List PredicationResult :=
  gen.map (fun poss =>
    { weekGuaranteedMinimum := wgmOf poss.prices
      weekMax := wmaxOf poss.prices
      prices := poss.prices
      patternNumber := poss.patternNumber
      patternName := poss.patternName
      probability := poss.probability
      categoryTotalProbability := 0 })

/-- category_totals[i]: the reduce-sum of the probabilities of the
records with that pattern number. -/
def categoryTotalsOf (l : List PredicationResult) (i : ℕ) : ℚ :=
  ((l.filter (fun v => v.patternNumber == i)).map (fun v => v.probability)).foldl
    (fun previous current => previous + current) 0

/-- Normalized records with week aggregates and category totals. -/
def stampedOf (gen0 : List Scenario) : List PredicationResult :=
  (withWeekOf (normalizeScens gen0)).map (fun p =>
    { p with categoryTotalProbability :=
        categoryTotalsOf (withWeekOf (normalizeScens gen0)) p.patternNumber })

/-- The records sorted by the comparator (JS stable sort = stable merge
sort under the comparator preorder). -/
def sortedOf (gen0 : List Scenario) : List PredicationResult :=
  (stampedOf gen0).mergeSort scenLE

/-- The per-slot global envelope over all records, folded from
(min 999, max 0). -/
def globalMinMaxOf (sorted : List PredicationResult) : List MinMax :=
  (List.range 14).map (fun (day : ℕ) =>
    sorted.foldl (fun pr poss =>
      let d := poss.prices.getD day ⟨999, 0⟩
      let pr1 := if d.min < pr.min then { pr with min := d.min } else pr
      if d.max > pr1.max then { pr1 with max := d.max } else pr1) (⟨999, 0⟩ : MinMax))

/-- The synthetic ALL row unshifted in front of the sorted records:
Math.min / Math.max over the records (plus and minus infinity on an empty
record list). -/
def allRowOf (sorted : List PredicationResult) : PredicationResult :=
  { weekGuaranteedMinimum := sorted.foldl (fun acc p => min acc p.weekGuaranteedMinimum) ⊤
    weekMax := sorted.foldl (fun acc p => max acc p.weekMax) ⊥
    prices := globalMinMaxOf sorted
    patternNumber := 4
    patternName := "ALL"
    probability := 0
    categoryTotalProbability := 0 }

/-- The post-generation part of analyzePossibilities: normalize, add the
week aggregates, the category totals, sort, compute the per-slot global
envelope, and prepend the ALL row. -/
def postProcess (gen0 : List Scenario) : List PredicationResult :=
  allRowOf (sortedOf gen0) :: sortedOf gen0

/-- Whether generation at a given fudge factor produced at least one
scenario (false also on a thrown exception). -/
def genNonempty (log : ℚ → ℚ) (prices : GP) (first_buy : Bool) (previous_pattern : JSValue)
    (fudge : ℕ) : Bool :=
  match generate_possibilities log (fudge : ℚ) prices first_buy previous_pattern with
  | .ok l => !l.isEmpty
  | .error _ => false

/-- The fudge-factor escalation loop over the listed factors: stop at the
first nonempty generation; the result of the last factor is kept even when
empty (no further factor to try); a thrown exception propagates. -/
def fudgeGo (gen : ℕ → Except String (List Scenario)) : List ℕ → Except String (List Scenario)
  | [] => .ok []
  | i :: rest =>
    match gen i with
    | .error e => .error e
    | .ok l =>
      if rest.isEmpty then .ok l
      else if l.isEmpty then fudgeGo gen rest else .ok l

/-- The scenario list analyzePossibilities settles on (factors 0..5). -/
def chosenPossibilities (log : ℚ → ℚ) (prices : GP) (first_buy : Bool)
    (previous_pattern : JSValue) : Except String (List Scenario) :=
  fudgeGo (fun i => generate_possibilities log (i : ℚ) prices first_buy previous_pattern)
    [0, 1, 2, 3, 4, 5]

/-- Predictor.analyzePossibilities. -/
def analyzePossibilities (log : ℚ → ℚ) (prices : GP) (first_buy : Bool)
    (previous_pattern : JSValue) : Except String (List PredicationResult) :=
  match chosenPossibilities log prices first_buy previous_pattern with
  | .error e => .error e
  | .ok gen => .ok (postProcess gen)

/-
  Theorems.
-/

/-- Over exact rationals the compensation term of the Neumaier loop is
always zero, so floatSum computes the plain sum. -/
theorem floatSumGo_eq (l : List ℚ) : ∀ sum c, floatSumGo sum c l = sum + c + l.sum := by
  induction l with
  | nil => intro sum c; simp [floatSumGo]
  | cons x xs ih =>
    intro sum c
    simp only [floatSumGo, List.sum_cons]
    split <;> rw [ih] <;> ring

theorem floatSum_eq_sum (l : List ℚ) : floatSum l = l.sum := by
  simp [floatSum, floatSumGo_eq]

/-- Math.round of an integer plus nothing is that integer. -/
theorem jsRound_intCast (k : ℤ) : jsRound (k : ℚ) = k := by
  unfold jsRound
  rw [Int.floor_int_add]
  norm_num

/-- C1 (amended): `decay(k, k)` translates `valueStart` and `valueEnd` by
`-k` and keeps the bin count, but divides every probability entry by the
zero width `maxY = 0`, so the prob array is NOT preserved: in the exact
model every entry collapses to 0 (in JS floating point, to NaN) and the
total mass becomes 0 rather than staying 1. -/
theorem decay_zero_width (p : PDF) (k : ℤ) :
    (p.decay (k : ℚ) (k : ℚ)).valueStart = p.valueStart - k ∧
    (p.decay (k : ℚ) (k : ℚ)).valueEnd = p.valueEnd - k ∧
    (p.decay (k : ℚ) (k : ℚ)).prob = List.replicate p.prob.length 0 := by
  unfold PDF.decay
  rw [jsRound_intCast]
  refine ⟨rfl, rfl, ?_⟩
  simp only [sub_self, add_zero, Int.toNat_natCast, Int.cast_zero, div_zero]
  rw [List.map_const', List.length_range]

unseal Rat.add Rat.inv Rat.mul Rat.sub in
/-- C1 counterexample: on the uniform PDF over [0, 2], `decay(1, 1)` does
not leave `prob` unchanged — the entries [1/2, 1/2] are destroyed and the
total mass drops from 1 to 0. -/
theorem decay_zero_width_cex :
    ((PDF.new 0 2 true).decay 1 1).prob ≠ (PDF.new 0 2 true).prob ∧
    floatSum ((PDF.new 0 2 true).decay 1 1).prob = 0 ∧
    floatSum (PDF.new 0 2 true).prob = 1 := by
  refine ⟨?_, ?_, ?_⟩ <;> decide

/-- The unit bin starting at `a + i` lies inside `[a, b]` when `i < b - a`,
so its intersection length with `[a, b]` is 1. -/
theorem rangeIntersectLength_unit (a b : ℤ) (i : ℕ) (hi : (i : ℤ) < b - a) :
    rangeIntersectLength (rangeOf a i) ((a : ℚ), (b : ℚ)) = 1 := by
  have hiq : (i : ℚ) < (b : ℚ) - (a : ℚ) := by exact_mod_cast hi
  have hiq1 : (i : ℚ) + 1 ≤ (b : ℚ) - (a : ℚ) := by exact_mod_cast Int.add_one_le_iff.mpr hi
  have hc : ¬(((a + (i : ℤ) : ℤ) : ℚ) > (b : ℚ) ∨ ((a + (i : ℤ) + 1 : ℤ) : ℚ) < (a : ℚ)) := by
    rw [not_or]
    constructor
    · push_cast; linarith
    · push_cast; linarith
  simp only [rangeIntersectLength, rangeIntersect, rangeOf, if_neg hc, rangeLengthN, rangeLength]
  have hmax : max (((a + (i : ℤ) : ℤ) : ℚ)) ((a : ℚ)) = ((a + (i : ℤ) : ℤ) : ℚ) := by
    apply max_eq_left
    push_cast; linarith
  have hmin : min (((a + (i : ℤ) + 1 : ℤ) : ℚ)) ((b : ℚ)) = ((a + (i : ℤ) + 1 : ℤ) : ℚ) := by
    apply min_eq_left
    push_cast; linarith
  rw [hmax, hmin]
  push_cast
  ring

theorem getD_replicate {α : Type} (c d : α) :
    ∀ (n j : ℕ), j < n → (List.replicate n c).getD j d = c := by
  intro n
  induction n with
  | zero => intro j hj; omega
  | succ m ih =>
    intro j hj
    cases j with
    | zero => rfl
    | succ k =>
      rw [List.replicate_succ, List.getD_cons_succ]
      exact ih k (by omega)

/-- The uniform PDF constructed on integer endpoints a < b has support
exactly [a, b] and constant bin mass 1 / (b - a). -/
theorem PDF.new_intCast (a b : ℤ) (h : a < b) :
    PDF.new (a : ℚ) (b : ℚ) true =
      ⟨a, b, List.replicate (b - a).toNat (1 / ((b : ℚ) - (a : ℚ)))⟩ := by
  unfold PDF.new PDF.new_prob_entries
  simp only [Int.floor_intCast, Int.ceil_intCast, if_true]
  congr 1
  rw [List.map_map]
  have hmem : ∀ i ∈ List.range (b - a).toNat,
      ((fun (x : Option ℚ) => x.getD 0) ∘ (fun (i : ℕ) =>
          some (rangeIntersectLength (rangeOf a i) ((a : ℚ), (b : ℚ)) /
            rangeLength ((a : ℚ), (b : ℚ))))) i =
        1 / ((b : ℚ) - (a : ℚ)) := by
    intro i hi
    have hi2 : (i : ℤ) < b - a := by
      have := List.mem_range.mp hi
      omega
    simp only [Function.comp_apply, Option.getD_some]
    rw [rangeIntersectLength_unit a b i hi2]
    rfl
  rw [List.map_congr_left hmem, List.map_const', List.length_range]

/-- C5: on a PDF constructed uniform over integer endpoints a < b,
range_limit with the full support [a, b] is a no-op: it returns mass 1 and
the PDF (endpoints and every prob entry) is unchanged. -/
theorem range_limit_full_range (a b : ℤ) (h : a < b) :
    (PDF.new (a : ℚ) (b : ℚ) true).range_limit ((a : ℚ), (b : ℚ)) =
      (1, PDF.new (a : ℚ) (b : ℚ) true) := by
  have hab : (a : ℚ) < (b : ℚ) := by exact_mod_cast h
  have hba : (0 : ℤ) ≤ b - a := by omega
  have hbaq : ((b : ℚ) - (a : ℚ)) ≠ 0 := sub_ne_zero.mpr (ne_of_gt hab)
  have hn : (((b - a).toNat : ℕ) : ℚ) = (b : ℚ) - (a : ℚ) := by
    have h2 := Int.toNat_of_nonneg hba
    exact_mod_cast congrArg (fun z : ℤ => (z : ℚ)) h2
  rw [PDF.new_intCast a b h]
  unfold PDF.range_limit PDF.min_value PDF.max_value
  simp only [max_self, min_self, Int.floor_intCast, Int.ceil_intCast, sub_self,
    Int.toNat_zero, Nat.sub_zero, Nat.zero_add]
  rw [if_neg (not_le.mpr hab)]
  have hmem : ∀ j ∈ List.range (b - a).toNat,
      (List.replicate (b - a).toNat (1 / ((b : ℚ) - (a : ℚ)))).getD j 0 *
          rangeIntersectLength (rangeOf a j) ((a : ℚ), (b : ℚ)) =
        1 / ((b : ℚ) - (a : ℚ)) := by
    intro j hj
    have hj1 : j < (b - a).toNat := List.mem_range.mp hj
    have hj2 : (j : ℤ) < b - a := by omega
    rw [getD_replicate _ _ _ _ hj1, rangeIntersectLength_unit a b j hj2, mul_one]
  rw [List.map_congr_left hmem, List.map_const', List.length_range]
  have htot : floatSum (List.replicate (b - a).toNat (1 / ((b : ℚ) - (a : ℚ)))) = 1 := by
    rw [floatSum_eq_sum, List.sum_replicate, nsmul_eq_mul, hn, mul_one_div_cancel hbaq]
  rw [htot]
  simp [List.map_replicate]

/-- C5 witness: the no-op holds concretely on the uniform PDF over [0, 2]. -/
theorem range_limit_full_range_wit :
    (PDF.new ((0 : ℤ) : ℚ) ((2 : ℤ) : ℚ) true).range_limit (((0 : ℤ) : ℚ), ((2 : ℤ) : ℚ)) =
      (1, PDF.new ((0 : ℤ) : ℚ) ((2 : ℤ) : ℚ) true) ∧ (0 : ℤ) < 2 :=
  ⟨range_limit_full_range 0 2 (by norm_num), by norm_num⟩

/-- C6: whenever the requested range, clipped to the support, is empty
(clipped start at or above clipped end), range_limit returns 0 and resets
the PDF to the invalid state valueStart = valueEnd = 0 with empty prob. -/
theorem range_limit_invalid (p : PDF) (r : Range)
    (h : min r.2 ((p.max_value : ℤ) : ℚ) ≤ max r.1 ((p.min_value : ℤ) : ℚ)) :
    p.range_limit r = (0, ⟨0, 0, []⟩) := by
  unfold PDF.range_limit
  rw [if_pos h]

unseal Rat.add Rat.inv Rat.mul Rat.sub in
/-- C6 witness: limiting the uniform PDF over [0, 2] to [5, 7] resets it. -/
theorem range_limit_invalid_wit :
    (PDF.new 0 2 true).range_limit (5, 7) = (0, ⟨0, 0, []⟩) ∧
    min (7 : ℚ) (((PDF.new 0 2 true).max_value : ℤ) : ℚ) ≤
      max (5 : ℚ) (((PDF.new 0 2 true).min_value : ℤ) : ℚ) := by
  have h : min ((5, 7) : Range).2 (((PDF.new 0 2 true).max_value : ℤ) : ℚ) ≤
      max ((5, 7) : Range).1 (((PDF.new 0 2 true).min_value : ℤ) : ℚ) := by decide
  exact ⟨range_limit_invalid (PDF.new 0 2 true) (5, 7) h, h⟩

/-- C7 (amended): constructing with uniform = false allocates
valueEnd - valueStart array slots and never fills them: every entry is a
hole that reads as undefined (none), not a zero — the zero-fill exists
only in the constructor doc comment and in the spec, not in the code. -/
theorem new_nonuniform_unfilled (a b : ℚ) (h : a < b) :
    (((PDF.new_prob_entries a b false).length : ℤ) =
      (PDF.new a b false).valueEnd - (PDF.new a b false).valueStart) ∧
    ∀ x ∈ PDF.new_prob_entries a b false, x = none := by
  have hprob : PDF.new_prob_entries a b false = List.replicate (⌈b⌉ - ⌊a⌋).toNat none := by
    simp [PDF.new_prob_entries]
  constructor
  · have hfc : ⌊a⌋ ≤ ⌈b⌉ := le_trans (Int.floor_le_floor h.le) (Int.floor_le_ceil b)
    rw [hprob, List.length_replicate]
    simp only [PDF.new]
    omega
  · intro x hx
    rw [hprob] at hx
    exact List.eq_of_mem_replicate hx

unseal Rat.add Rat.inv Rat.mul Rat.sub in
/-- C7 counterexample: for a = 0, b = 3/2 the non-uniform constructor
leaves the two allocated entries as holes (undefined reads), so the claim
that every entry equals zero fails. -/
theorem new_nonuniform_zero_fill_cex :
    PDF.new_prob_entries 0 (3/2) false = [none, none] ∧
    ¬(∀ x ∈ PDF.new_prob_entries 0 (3/2) false, x = some 0) := by
  constructor <;> decide

/-- C7 witness: for a = 0, b = 3/2 the unfilled PDF has 2 slots (floor 0
to ceil 3/2), all holes. -/
theorem new_nonuniform_unfilled_wit :
    (((PDF.new_prob_entries 0 (3/2) false).length : ℤ) =
      (PDF.new 0 (3/2) false).valueEnd - (PDF.new 0 (3/2) false).valueStart) ∧
    (∀ x ∈ PDF.new_prob_entries 0 (3/2) false, x = none) ∧ ((0 : ℚ) < 3/2) :=
  ⟨(new_nonuniform_unfilled 0 (3/2) (by norm_num)).1,
   (new_nonuniform_unfilled 0 (3/2) (by norm_num)).2, by norm_num⟩

/-- C9: get_transition_probability returns exactly the steady-state row
(4530, 3236, 1931, 3385)/13082 for undefined, NaN, null, negative and
greater-than-3 arguments, and the fixed matrix row for 0, 1, 2, 3. -/
theorem transition_probability_spec :
    get_transition_probability .undef = some steadyStateRow ∧
    get_transition_probability .nan = some steadyStateRow ∧
    get_transition_probability .null = some steadyStateRow ∧
    (∀ q : ℚ, q < 0 → get_transition_probability (.num q) = some steadyStateRow) ∧
    (∀ q : ℚ, 3 < q → get_transition_probability (.num q) = some steadyStateRow) ∧
    get_transition_probability (.num 0) = some [2/10, 3/10, 15/100, 35/100] ∧
    get_transition_probability (.num 1) = some [5/10, 5/100, 2/10, 25/100] ∧
    get_transition_probability (.num 2) = some [25/100, 45/100, 5/100, 25/100] ∧
    get_transition_probability (.num 3) = some [45/100, 25/100, 15/100, 15/100] ∧
    steadyStateRow = [4530/13082, 3236/13082, 1931/13082, 3385/13082] := by
  refine ⟨rfl, rfl, rfl, ?_, ?_, rfl, rfl, rfl, rfl, rfl⟩
  · intro q hq
    show (if q < 0 ∨ q > 3 then some steadyStateRow else probabilityMatrixLookup q) =
      some steadyStateRow
    rw [if_pos (Or.inl hq)]
  · intro q hq
    show (if q < 0 ∨ q > 3 then some steadyStateRow else probabilityMatrixLookup q) =
      some steadyStateRow
    rw [if_pos (Or.inr hq)]

/-- C9 witness: the out-of-range arguments -1 and 4 both get the
steady-state row. -/
theorem transition_probability_spec_wit :
    get_transition_probability (.num (-1)) = some steadyStateRow ∧
    get_transition_probability (.num 4) = some steadyStateRow :=
  ⟨transition_probability_spec.2.2.2.1 (-1) (by norm_num),
   transition_probability_spec.2.2.2.2.1 4 (by norm_num)⟩

/-- C10: each item multiply_generator_probability yields agrees with the
corresponding inner item on patternNumber, patternName and prices, and
its probability is the inner probability times the factor. -/
theorem multiply_generator_probability_frame (l : List Scenario) (p : ℚ) :
    (multiply_generator_probability l p).length = l.length ∧
    ∀ (i : ℕ) (h1 : i < (multiply_generator_probability l p).length) (h2 : i < l.length),
      ((multiply_generator_probability l p).get ⟨i, h1⟩).patternNumber =
          (l.get ⟨i, h2⟩).patternNumber ∧
      ((multiply_generator_probability l p).get ⟨i, h1⟩).patternName =
          (l.get ⟨i, h2⟩).patternName ∧
      ((multiply_generator_probability l p).get ⟨i, h1⟩).prices = (l.get ⟨i, h2⟩).prices ∧
      ((multiply_generator_probability l p).get ⟨i, h1⟩).probability =
          (l.get ⟨i, h2⟩).probability * p := by
  constructor
  · simp [multiply_generator_probability]
  · intro i h1 h2
    simp [multiply_generator_probability, List.get_map]

/-- C10 witness: the frame property at a concrete one-element generator. -/
theorem multiply_generator_probability_frame_wit :
    (multiply_generator_probability [⟨0, "FLUCTUATING", [], (1 : ℚ)/2⟩] (1/3)).length = 1 ∧
    ((multiply_generator_probability [⟨0, "FLUCTUATING", [], (1 : ℚ)/2⟩] (1/3)).get
        ⟨0, by decide⟩).patternNumber = 0 ∧
    ((multiply_generator_probability [⟨0, "FLUCTUATING", [], (1 : ℚ)/2⟩] (1/3)).get
        ⟨0, by decide⟩).probability = (1 : ℚ)/2 * (1/3) := by
  have h := multiply_generator_probability_frame [⟨0, "FLUCTUATING", [], (1 : ℚ)/2⟩] (1/3)
  have h2 := h.2 0 (by decide) (by decide)
  exact ⟨h.1, h2.1, h2.2.2.2⟩

/-- A list of exception-free runs concatenates to an exception-free run. -/
theorem exFlat_ok (l : List (Except String (List Scenario)))
    (h : ∀ e ∈ l, ∃ x, e = .ok x) : ∃ y, exFlat l = .ok y := by
  induction l with
  | nil => exact ⟨[], rfl⟩
  | cons e rest ih =>
    obtain ⟨x, hx⟩ := h e (List.mem_cons_self e rest)
    obtain ⟨y, hy⟩ := ih (fun e2 he2 => h e2 (List.mem_cons_of_mem _ he2))
    subst hx
    refine ⟨x ++ y, ?_⟩
    simp [exFlat, hy]

/-- When the five phase lengths plus the 2 buy slots sum to 14, the
phase-length throw branch is not taken. -/
theorem generate_pattern_0_with_lengths_ok (fudge : ℚ) (gp : GP)
    (h1 d1 h2 d2 h3 : ℕ) (h14 : 2 + h1 + d1 + h2 + d2 + h3 = 14) :
    ∃ l, generate_pattern_0_with_lengths fudge gp h1 d1 h2 d2 h3 = .ok l := by
  simp only [generate_pattern_0_with_lengths]
  rw [h14]
  repeat' split
  all_goals first
    | exact ⟨_, rfl⟩
    | (exfalso; omega)

/-- Every hidden-parameter combination enumerated by generate_pattern_0
satisfies the length invariant, so the generator never throws. -/
theorem generate_pattern_0_ok (fudge : ℚ) (gp : GP) :
    ∃ l, generate_pattern_0 fudge gp = .ok l := by
  unfold generate_pattern_0
  apply exFlat_ok
  intro e he
  simp only [List.mem_flatMap, List.mem_map, List.mem_range, List.mem_range'_1] at he
  obtain ⟨d1, ⟨hd1a, hd1b⟩, h1v, hh1, h3v, hh3, rfl⟩ := he
  obtain ⟨l, hl⟩ := generate_pattern_0_with_lengths_ok fudge gp
    h1v d1 (7 - h1v - h3v) (5 - d1) h3v (by omega)
  exact ⟨_, by rw [hl]; rfl⟩

/-- C8: for every enumerated combination (dec1 in 2..3, high1 in 0..6,
high3 in 0..(7 - high1 - 1)) the five phase lengths plus the 2 buy slots
sum to exactly 14, and consequently generate_pattern_0 never reaches its
phase-length throw branch on any input. -/
theorem pattern0_phase_lengths (fudge : ℚ) (gp : GP) :
    (∀ d1 h1 h3 : ℕ, 2 ≤ d1 → d1 < 4 → h1 < 7 → h3 < 7 - h1 - 1 + 1 →
      2 + h1 + d1 + (7 - h1 - h3) + (5 - d1) + h3 = 14) ∧
    ∃ l, generate_pattern_0 fudge gp = Except.ok l :=
  ⟨fun _ _ _ a b c d => by omega, generate_pattern_0_ok fudge gp⟩

/-- C8 witness: the invariant at dec1 = 2, high1 = 0, high3 = 0, and the
throw-free run on the all-missing observation vector. -/
theorem pattern0_phase_lengths_wit :
    (2 + 0 + 2 + (7 - 0 - 0) + (5 - 2) + 0 = 14) ∧
    (generate_pattern_0 0 (List.replicate 14 none)).toOption.isSome = true := by
  constructor
  · exact (pattern0_phase_lengths 0 (List.replicate 14 none)).1 2 0 0
      (by norm_num) (by norm_num) (by norm_num) (by norm_num)
  · obtain ⟨l, hl⟩ := (pattern0_phase_lengths 0 (List.replicate 14 none)).2
    rw [hl]
    rfl

/-- Exception-free runs, mapped over indices, concatenate to the flatMap
of their payloads. -/
theorem exFlat_map_ok (f : ℕ → List Scenario) (l : List ℕ) :
    exFlat (l.map (fun b => .ok (f b))) = .ok (l.flatMap f) := by
  induction l with
  | nil => rfl
  | cons b rest ih => simp [exFlat, ih, List.flatMap_cons]

/-- Under firstBuy the generator enumerates exactly the buy prices
90..110, running pattern 3 on each adjusted vector, with no extra
probability multiplication and no dependence on previousPattern. -/
theorem generate_possibilities_firstBuy (log : ℚ → ℚ) (f : ℚ) (sp : GP) (pp : JSValue) :
    generate_possibilities log f sp true pp =
      .ok ((List.range' 90 21).flatMap (fun (buy : ℕ) =>
        generate_pattern_3 log f (setBuy sp (buy : ℚ)))) := by
  have h1 : generate_possibilities log f sp true pp =
      exFlat ((List.range' 90 21).map (fun (buy : ℕ) =>
        Except.ok (generate_pattern_3 log f (setBuy sp (buy : ℚ))))) := rfl
  rw [h1, exFlat_map_ok]

/-- Pattern 3 per-peak scenarios carry pattern number 3. -/
theorem mem_generate_pattern_3_with_peak (log : ℚ → ℚ) (f : ℚ) (gp : GP) (ps : ℕ)
    (t : Scenario) (ht : t ∈ generate_pattern_3_with_peak log f gp ps) :
    t.patternNumber = 3 := by
  simp only [generate_pattern_3_with_peak] at ht
  repeat' split at ht
  all_goals first
    | exact absurd ht (List.not_mem_nil _)
    | (rw [List.mem_singleton] at ht; subst ht; rfl)

/-- Pattern 3 scenarios carry pattern number 3. -/
theorem mem_generate_pattern_3 (log : ℚ → ℚ) (f : ℚ) (gp : GP) (s : Scenario)
    (hs : s ∈ generate_pattern_3 log f gp) : s.patternNumber = 3 := by
  unfold generate_pattern_3 at hs
  rw [List.mem_flatMap] at hs
  obtain ⟨ps, hps, hm⟩ := hs
  unfold multiply_generator_probability at hm
  rw [List.mem_map] at hm
  obtain ⟨t, ht, rfl⟩ := hm
  simpa using mem_generate_pattern_3_with_peak log f gp ps t ht

/-- When the generation succeeds at every listed factor, the escalation
loop succeeds. -/
theorem fudgeGo_ok (gen : ℕ → Except String (List Scenario)) :
    ∀ idxs : List ℕ, (∀ i ∈ idxs, ∃ l, gen i = .ok l) → ∃ l, fudgeGo gen idxs = .ok l := by
  intro idxs
  induction idxs with
  | nil => exact fun _ => ⟨[], rfl⟩
  | cons i rest ih =>
    intro h
    obtain ⟨l, hl⟩ := h i (List.mem_cons_self i rest)
    obtain ⟨l2, hl2⟩ := ih (fun j hj => h j (List.mem_cons_of_mem _ hj))
    unfold fudgeGo
    rw [hl]
    show ∃ l2, (if rest.isEmpty = true then Except.ok l
      else if l.isEmpty = true then fudgeGo gen rest else Except.ok l) = Except.ok l2
    by_cases hre : rest.isEmpty
    · rw [if_pos hre]; exact ⟨l, rfl⟩
    · rw [if_neg hre]
      by_cases hle : l.isEmpty
      · rw [if_pos hle]; exact ⟨l2, hl2⟩
      · rw [if_neg hle]; exact ⟨l, rfl⟩

/-- A successful escalation result is either empty or one of the listed
generations verbatim. -/
theorem fudgeGo_cases (gen : ℕ → Except String (List Scenario)) :
    ∀ (idxs : List ℕ) (res : List Scenario),
      fudgeGo gen idxs = .ok res → res = [] ∨ ∃ i ∈ idxs, gen i = .ok res := by
  intro idxs
  induction idxs with
  | nil =>
    intro res h
    simp only [fudgeGo, Except.ok.injEq] at h
    exact Or.inl h.symm
  | cons i rest ih =>
    intro res h
    unfold fudgeGo at h
    cases hgi : gen i with
    | error e => rw [hgi] at h; exact absurd h (by simp)
    | ok l =>
      rw [hgi] at h
      have h3 : (if rest.isEmpty = true then Except.ok l
          else if l.isEmpty = true then fudgeGo gen rest else Except.ok l) = .ok res := h
      by_cases hre : rest.isEmpty
      · rw [if_pos hre] at h3
        have h2 : l = res := by simpa using h3
        subst h2
        exact Or.inr ⟨i, List.mem_cons_self i rest, hgi⟩
      · rw [if_neg hre] at h3
        by_cases hle : l.isEmpty
        · rw [if_pos hle] at h3
          rcases ih res h3 with h0 | ⟨j, hj, hgj⟩
          · exact Or.inl h0
          · exact Or.inr ⟨j, List.mem_cons_of_mem _ hj, hgj⟩
        · rw [if_neg hle] at h3
          have h2 : l = res := by simpa using h3
          subst h2
          exact Or.inr ⟨i, List.mem_cons_self i rest, hgi⟩

/-- The escalation loop settles on the first nonempty generation: all
factors before it generate empty. -/
theorem fudgeGo_spec (gen : ℕ → Except String (List Scenario)) :
    ∀ (pre : List ℕ) (F : ℕ) (post : List ℕ) (lF : List Scenario),
      (∀ j ∈ pre, gen j = .ok []) → gen F = .ok lF → lF ≠ [] →
      fudgeGo gen (pre ++ F :: post) = .ok lF := by
  intro pre
  induction pre with
  | nil =>
    intro F post lF hpre hF hne
    rw [List.nil_append]
    unfold fudgeGo
    rw [hF]
    show (if post.isEmpty = true then Except.ok lF
      else if lF.isEmpty = true then fudgeGo gen post else Except.ok lF) = Except.ok lF
    have hlne : lF.isEmpty = false := by
      rw [Bool.eq_false_iff]
      intro hcon
      exact hne (List.isEmpty_iff.mp hcon)
    by_cases hpost : (post : List ℕ).isEmpty
    · rw [if_pos hpost]
    · rw [if_neg hpost, if_neg (by simp [hlne])]
  | cons j pre ih =>
    intro F post lF hpre hF hne
    rw [List.cons_append]
    unfold fudgeGo
    rw [hpre j (List.mem_cons_self j _)]
    show (if (pre ++ F :: post).isEmpty = true then Except.ok ([] : List Scenario)
      else if ([] : List Scenario).isEmpty = true then fudgeGo gen (pre ++ F :: post)
      else Except.ok []) = Except.ok lF
    rw [if_neg (by simp), if_pos (by rfl)]
    exact ih F post lF (fun x hx => hpre x (List.mem_cons_of_mem _ hx)) hF hne

/-- generate_all_patterns succeeds exactly when the transition row is
defined (pattern 0 never throws). -/
theorem generate_all_patterns_ok (log : ℚ → ℚ) (f : ℚ) (sp : GP) (pp : JSValue)
    (h : (get_transition_probability pp).isSome = true) :
    ∃ l, generate_all_patterns log f sp pp = .ok l := by
  unfold generate_all_patterns
  obtain ⟨row, hrow⟩ := Option.isSome_iff_exists.mp h
  rw [hrow]
  obtain ⟨l0, hl0⟩ := generate_pattern_0_ok f sp
  rw [hl0]
  exact ⟨_, rfl⟩

/-- generate_possibilities succeeds independently of the fudge factor:
it succeeds exactly when firstBuy is set or the transition row is
defined. -/
theorem generate_possibilities_isOk (log : ℚ → ℚ) (f : ℚ) (sp : GP) (fb : Bool) (pp : JSValue) :
    (∃ l, generate_possibilities log f sp fb pp = .ok l) ↔
      (fb = true ∨ (get_transition_probability pp).isSome = true) := by
  constructor
  · intro h
    cases fb with
    | true => exact Or.inl rfl
    | false =>
      right
      cases hgtp : get_transition_probability pp with
      | some row => rfl
      | none =>
        exfalso
        obtain ⟨l, hl⟩ := h
        have hgap : ∀ sp2 : GP, generate_all_patterns log f sp2 pp =
            .error "TypeError: transition probability row is undefined" := by
          intro sp2
          unfold generate_all_patterns
          rw [hgtp]
        unfold generate_possibilities at hl
        simp only [Bool.false_or] at hl
        by_cases hs0 : (getObs sp 0).isNone
        · rw [if_pos hs0] at hl
          rw [show List.range' 90 21 = 90 :: List.range' 91 20 from rfl, List.map_cons] at hl
          simp only [Bool.false_eq_true, if_false, hgap] at hl
          exact absurd hl (by simp [exFlat])
        · rw [if_neg hs0, hgap] at hl
          exact absurd hl (by simp)
  · intro h
    cases fb with
    | true => exact ⟨_, generate_possibilities_firstBuy log f sp pp⟩
    | false =>
      have hsome : (get_transition_probability pp).isSome = true := by
        rcases h with h1 | h2
        · exact absurd h1 (by simp)
        · exact h2
      unfold generate_possibilities
      simp only [Bool.false_or]
      by_cases hs0 : (getObs sp 0).isNone
      · rw [if_pos hs0]
        apply exFlat_ok
        intro e he
        rw [List.mem_map] at he
        obtain ⟨buy, hb, rfl⟩ := he
        simp only [Bool.false_eq_true, if_false]
        exact generate_all_patterns_ok log f _ pp hsome
      · rw [if_neg hs0]
        exact generate_all_patterns_ok log f sp pp hsome

/-- C3: analyzePossibilities settles on the generation of the smallest
fudge factor F in 0..5 producing at least one scenario; every smaller
factor generates zero scenarios, and the returned records are the
post-processing (normalization, aggregation, sort, ALL row) of exactly
that generation. -/
theorem fudge_escalation (log : ℚ → ℚ) (prices : GP) (fb : Bool) (pp : JSValue)
    (h : ∃ F, F ≤ 5 ∧ genNonempty log prices fb pp F = true) :
    ∃ l, generate_possibilities log ((Nat.find h : ℕ) : ℚ) prices fb pp = .ok l ∧ l ≠ [] ∧
      chosenPossibilities log prices fb pp = .ok l ∧
      analyzePossibilities log prices fb pp = .ok (postProcess l) ∧
      ∀ j < Nat.find h, generate_possibilities log ((j : ℕ) : ℚ) prices fb pp = .ok [] := by
  have hspec := Nat.find_spec h
  have hF5 : Nat.find h ≤ 5 := hspec.1
  have hgen : ∃ l, generate_possibilities log ((Nat.find h : ℕ) : ℚ) prices fb pp = .ok l ∧
      l ≠ [] := by
    have h2 := hspec.2
    unfold genNonempty at h2
    cases hmatch : generate_possibilities log ((Nat.find h : ℕ) : ℚ) prices fb pp with
    | error e => rw [hmatch] at h2; exact absurd h2 (by simp)
    | ok l =>
      rw [hmatch] at h2
      refine ⟨l, rfl, ?_⟩
      intro hnil
      subst hnil
      exact absurd h2 (by simp)
  obtain ⟨l, hl, hlne⟩ := hgen
  have hok : ∀ j : ℕ, ∃ l2, generate_possibilities log ((j : ℕ) : ℚ) prices fb pp = .ok l2 := by
    intro j
    apply (generate_possibilities_isOk log ((j : ℕ) : ℚ) prices fb pp).mpr
    exact (generate_possibilities_isOk log ((Nat.find h : ℕ) : ℚ) prices fb pp).mp ⟨l, hl⟩
  have hempty : ∀ j < Nat.find h,
      generate_possibilities log ((j : ℕ) : ℚ) prices fb pp = .ok [] := by
    intro j hj
    obtain ⟨l2, hl2⟩ := hok j
    have hnot := Nat.find_min h hj
    have hj5 : j ≤ 5 := le_trans (le_of_lt hj) hF5
    have hgnf : genNonempty log prices fb pp j = false := by
      cases hgn : genNonempty log prices fb pp j with
      | false => rfl
      | true => exact absurd ⟨hj5, hgn⟩ hnot
    unfold genNonempty at hgnf
    rw [hl2] at hgnf
    have hgnf2 : (!l2.isEmpty) = false := hgnf
    have hie : l2.isEmpty = true := by
      cases hie2 : l2.isEmpty with
      | true => rfl
      | false => rw [hie2] at hgnf2; exact absurd hgnf2 (by simp)
    rw [hl2, List.isEmpty_iff.mp hie]
  have hchosen : chosenPossibilities log prices fb pp = .ok l := by
    have hF5b := hF5
    have hlb := hl
    have hemptyb := hempty
    generalize hgF : Nat.find h = F at hF5b hlb hemptyb
    unfold chosenPossibilities
    have hcase : F = 0 ∨ F = 1 ∨ F = 2 ∨ F = 3 ∨ F = 4 ∨ F = 5 := by omega
    rcases hcase with rfl | rfl | rfl | rfl | rfl | rfl
    · exact fudgeGo_spec _ [] 0 [1, 2, 3, 4, 5] l (by intro j hj; exact absurd hj (by simp))
        hlb hlne
    · exact fudgeGo_spec _ [0] 1 [2, 3, 4, 5] l
        (by intro j hj; rw [List.mem_singleton] at hj; subst hj; exact hemptyb 0 (by omega))
        hlb hlne
    · refine fudgeGo_spec _ [0, 1] 2 [3, 4, 5] l ?_ hlb hlne
      intro j hj
      fin_cases hj
      · exact hemptyb 0 (by omega)
      · exact hemptyb 1 (by omega)
    · refine fudgeGo_spec _ [0, 1, 2] 3 [4, 5] l ?_ hlb hlne
      intro j hj
      fin_cases hj
      · exact hemptyb 0 (by omega)
      · exact hemptyb 1 (by omega)
      · exact hemptyb 2 (by omega)
    · refine fudgeGo_spec _ [0, 1, 2, 3] 4 [5] l ?_ hlb hlne
      intro j hj
      fin_cases hj
      · exact hemptyb 0 (by omega)
      · exact hemptyb 1 (by omega)
      · exact hemptyb 2 (by omega)
      · exact hemptyb 3 (by omega)
    · refine fudgeGo_spec _ [0, 1, 2, 3, 4] 5 [] l ?_ hlb hlne
      intro j hj
      fin_cases hj
      · exact hemptyb 0 (by omega)
      · exact hemptyb 1 (by omega)
      · exact hemptyb 2 (by omega)
      · exact hemptyb 3 (by omega)
      · exact hemptyb 4 (by omega)
  refine ⟨l, hl, hlne, hchosen, ?_, hempty⟩
  unfold analyzePossibilities
  rw [hchosen]

/-- Every sorted record originates in one generated scenario, keeping its
pattern number and computing the week aggregates off its prices. -/
theorem mem_sortedOf (gen : List Scenario) (r : PredicationResult) (hr : r ∈ sortedOf gen) :
    ∃ g ∈ gen, r.patternNumber = g.patternNumber ∧
      r.weekGuaranteedMinimum = wgmOf g.prices ∧ r.weekMax = wmaxOf g.prices := by
  unfold sortedOf at hr
  rw [List.mem_mergeSort] at hr
  simp only [stampedOf, List.mem_map] at hr
  obtain ⟨p, hp, rfl⟩ := hr
  simp only [withWeekOf, List.mem_map] at hp
  obtain ⟨poss, hposs, rfl⟩ := hp
  simp only [normalizeScens, List.mem_map] at hposs
  obtain ⟨g, hg, rfl⟩ := hposs
  exact ⟨g, hg, by simp, by simp, by simp⟩

theorem length_sortedOf (gen : List Scenario) : (sortedOf gen).length = gen.length := by
  simp [sortedOf, stampedOf, withWeekOf, normalizeScens, List.length_mergeSort]

theorem foldl_min_le_init (f : PredicationResult → ExtQ) :
    ∀ (l : List PredicationResult) (a : ExtQ), l.foldl (fun acc p => min acc (f p)) a ≤ a := by
  intro l
  induction l with
  | nil => intro a; exact le_refl a
  | cons x xs ih => intro a; exact le_trans (ih (min a (f x))) (min_le_left _ _)

theorem foldl_min_le_of_mem (f : PredicationResult → ExtQ) :
    ∀ (l : List PredicationResult) (x : PredicationResult), x ∈ l → ∀ a : ExtQ,
      l.foldl (fun acc p => min acc (f p)) a ≤ f x := by
  intro l
  induction l with
  | nil => intro x hx; exact absurd hx (List.not_mem_nil _)
  | cons y ys ih =>
    intro x hx a
    rcases List.mem_cons.mp hx with rfl | hx2
    · exact le_trans (foldl_min_le_init f ys (min a (f x))) (min_le_right _ _)
    · exact ih x hx2 _

theorem le_foldl_max_init (f : PredicationResult → ExtQ) :
    ∀ (l : List PredicationResult) (a : ExtQ), a ≤ l.foldl (fun acc p => max acc (f p)) a := by
  intro l
  induction l with
  | nil => intro a; exact le_refl a
  | cons x xs ih => intro a; exact le_trans (le_max_left _ _) (ih (max a (f x)))

theorem le_foldl_max_of_mem (f : PredicationResult → ExtQ) :
    ∀ (l : List PredicationResult) (x : PredicationResult), x ∈ l → ∀ a : ExtQ,
      f x ≤ l.foldl (fun acc p => max acc (f p)) a := by
  intro l
  induction l with
  | nil => intro x hx; exact absurd hx (List.not_mem_nil _)
  | cons y ys ih =>
    intro x hx a
    rcases List.mem_cons.mp hx with rfl | hx2
    · exact le_trans (le_max_right _ _) (le_foldl_max_init f ys (max a (f x)))
    · exact ih x hx2 _

/-- The embedding of finite numbers into ExtQ is monotone. -/
theorem qE_mono {x y : ℚ} (h : x ≤ y) : qE x ≤ qE y := by
  unfold qE
  exact_mod_cast h

/-- The week-accumulation loop only ever holds pairs whose first
component is at most the second (given the slot invariant). -/
theorem weekAccum_pointwise :
    ∀ (days : List MinMax) (acc : List (ℚ × ℚ)),
      (∀ pr ∈ acc, pr.1 ≤ pr.2) → (∀ d ∈ days, d.min ≤ d.max) →
      ∀ pr ∈ days.foldl (fun acc d => if d.min ≠ d.max then acc ++ [(d.min, d.max)] else []) acc,
        pr.1 ≤ pr.2 := by
  intro days
  induction days with
  | nil => intro acc hacc _ pr hpr; exact hacc pr hpr
  | cons d rest ih =>
    intro acc hacc hdays pr hpr
    rw [List.foldl_cons] at hpr
    refine ih _ ?_ (fun d2 hd2 => hdays d2 (List.mem_cons_of_mem _ hd2)) pr hpr
    intro pr2 hpr2
    by_cases hd : d.min ≠ d.max
    · rw [if_pos hd] at hpr2
      rcases List.mem_append.mp hpr2 with h1 | h2
      · exact hacc pr2 h1
      · rw [List.mem_singleton] at h2
        subst h2
        exact hdays d (List.mem_cons_self _ _)
    · rw [if_neg hd] at hpr2
      exact absurd hpr2 (List.not_mem_nil _)

/-- All collected week pairs respect min at most max. -/
theorem weekPairs_pointwise (prices : List MinMax) (h : ∀ mm ∈ prices, mm.min ≤ mm.max) :
    ∀ pr ∈ weekPairs prices, pr.1 ≤ pr.2 := by
  intro pr hpr
  simp only [weekPairs] at hpr
  split at hpr
  · cases hg : prices.getLast? with
    | none => rw [hg] at hpr; exact absurd hpr (List.not_mem_nil _)
    | some mm =>
      rw [hg] at hpr
      rw [List.mem_singleton] at hpr
      subst hpr
      exact h mm (List.mem_of_mem_getLast? (by rw [hg]; rfl))
  · unfold weekAccum at hpr
    exact weekAccum_pointwise (prices.drop 2) [] (fun pr2 hpr2 => absurd hpr2 (List.not_mem_nil _))
      (fun d hd => h d (List.drop_subset 2 prices hd)) pr hpr

/-- Folding the maxima of the left components never exceeds folding the
maxima of the right components, for pointwise-ordered pairs. -/
theorem pairs_fold_le :
    ∀ (pairs : List (ℚ × ℚ)), (∀ pr ∈ pairs, pr.1 ≤ pr.2) →
      ∀ (a b : ExtQ), a ≤ b →
      pairs.foldl (fun acc pr => max acc (qE pr.1)) a ≤
        pairs.foldl (fun acc pr => max acc (qE pr.2)) b := by
  intro pairs
  induction pairs with
  | nil => intro _ a b hab; exact hab
  | cons pr rest ih =>
    intro h a b hab
    rw [List.foldl_cons, List.foldl_cons]
    refine ih (fun pr2 hpr2 => h pr2 (List.mem_cons_of_mem _ hpr2)) _ _ ?_
    exact max_le_max hab (qE_mono (h pr (List.mem_cons_self _ _)))

/-- weekGuaranteedMinimum at most weekMax, per scenario. -/
theorem wgmOf_le_wmaxOf (prices : List MinMax) (h : ∀ mm ∈ prices, mm.min ≤ mm.max) :
    wgmOf prices ≤ wmaxOf prices := by
  unfold wgmOf wmaxOf
  exact pairs_fold_le (weekPairs prices) (weekPairs_pointwise prices h) ⊥ ⊥ (le_refl _)

/-- Every sorted record satisfies the week invariant (given the slot
invariant on the generated scenarios). -/
theorem sortedOf_wgm_le (gen : List Scenario)
    (hmm : ∀ s ∈ gen, ∀ mm ∈ s.prices, mm.min ≤ mm.max) :
    ∀ r ∈ sortedOf gen, r.weekGuaranteedMinimum ≤ r.weekMax := by
  intro r hr
  obtain ⟨g, hg, _, hw1, hw2⟩ := mem_sortedOf gen r hr
  rw [hw1, hw2]
  exact wgmOf_le_wmaxOf g.prices (hmm g hg)

/-- The week invariant over the whole post-processed output, ALL row
included, when at least one scenario was generated. -/
theorem postProcess_wgm_le (gen : List Scenario) (hne : gen ≠ [])
    (hmm : ∀ s ∈ gen, ∀ mm ∈ s.prices, mm.min ≤ mm.max) :
    ∀ r ∈ postProcess gen, r.weekGuaranteedMinimum ≤ r.weekMax := by
  intro r hr
  unfold postProcess at hr
  rcases List.mem_cons.mp hr with rfl | hr2
  · have hsne : sortedOf gen ≠ [] := by
      intro hnil
      have hlen := length_sortedOf gen
      rw [hnil] at hlen
      exact hne (List.eq_nil_of_length_eq_zero hlen.symm)
    obtain ⟨s0, hs0⟩ := List.exists_mem_of_ne_nil _ hsne
    show (sortedOf gen).foldl (fun acc p => min acc p.weekGuaranteedMinimum) ⊤ ≤
      (sortedOf gen).foldl (fun acc p => max acc p.weekMax) ⊥
    calc (sortedOf gen).foldl (fun acc p => min acc p.weekGuaranteedMinimum) ⊤
        ≤ s0.weekGuaranteedMinimum :=
          foldl_min_le_of_mem (fun p => p.weekGuaranteedMinimum) _ s0 hs0 ⊤
      _ ≤ s0.weekMax := sortedOf_wgm_le gen hmm s0 hs0
      _ ≤ (sortedOf gen).foldl (fun acc p => max acc p.weekMax) ⊥ :=
          le_foldl_max_of_mem (fun p => p.weekMax) _ s0 hs0 ⊥
  · exact sortedOf_wgm_le gen hmm r hr2

/-- C2 (amended): whenever generation settles on a nonempty scenario list
whose slots all satisfy min at most max, every returned record — the ALL
row included — satisfies weekGuaranteedMinimum at most weekMax.  (In the
all-refuted case the ALL row instead gets weekGuaranteedMinimum = plus
infinity and weekMax = minus infinity, violating the inequality.) -/
theorem analyze_week_min_le_max (log : ℚ → ℚ) (prices : GP) (fb : Bool) (pp : JSValue)
    (gen : List Scenario) (out : List PredicationResult)
    (hgen : chosenPossibilities log prices fb pp = .ok gen)
    (hne : gen ≠ [])
    (hmm : ∀ s ∈ gen, ∀ mm ∈ s.prices, mm.min ≤ mm.max)
    (hout : analyzePossibilities log prices fb pp = .ok out) :
    ∀ r ∈ out, r.weekGuaranteedMinimum ≤ r.weekMax := by
  unfold analyzePossibilities at hout
  rw [hgen] at hout
  have h2 : postProcess gen = out := by simpa using hout
  subst h2
  exact postProcess_wgm_le gen hne hmm

/-- C4: under firstBuy the analysis ignores previousPattern entirely, the
generation enumerates exactly the buy prices 90..110 running only
pattern 3 on each (equal weight, no extra multiplication), and every
returned record other than the prepended ALL row has pattern number 3. -/
theorem firstBuy_pattern3_only (log : ℚ → ℚ) (prices : GP) (pp pp2 : JSValue) :
    analyzePossibilities log prices true pp = analyzePossibilities log prices true pp2 ∧
    (∀ f : ℚ, generate_possibilities log f prices true pp =
      .ok ((List.range' 90 21).flatMap (fun (buy : ℕ) =>
        generate_pattern_3 log f (setBuy prices (buy : ℚ))))) ∧
    (∀ out, analyzePossibilities log prices true pp = .ok out →
      ∀ r ∈ out.tail, r.patternNumber = 3) := by
  refine ⟨?_, fun f => generate_possibilities_firstBuy log f prices pp, ?_⟩
  · have hfun : (fun i : ℕ => generate_possibilities log (i : ℚ) prices true pp) =
        (fun i : ℕ => generate_possibilities log (i : ℚ) prices true pp2) := by
      funext i
      rw [generate_possibilities_firstBuy, generate_possibilities_firstBuy]
    unfold analyzePossibilities chosenPossibilities
    rw [hfun]
  · intro out hout r hr
    unfold analyzePossibilities at hout
    cases hch : chosenPossibilities log prices true pp with
    | error e => rw [hch] at hout; exact absurd hout (by simp)
    | ok gen =>
      rw [hch] at hout
      have h2 : postProcess gen = out := by simpa using hout
      subst h2
      have hr2 : r ∈ sortedOf gen := by simpa [postProcess] using hr
      obtain ⟨g, hg, hpn, _, _⟩ := mem_sortedOf gen r hr2
      unfold chosenPossibilities at hch
      rcases fudgeGo_cases _ _ _ hch with h0 | ⟨i, _, hgi⟩
      · subst h0
        exact absurd hg (List.not_mem_nil _)
      · rw [generate_possibilities_firstBuy log ((i : ℕ) : ℚ) prices pp] at hgi
        have hgen2 : gen = (List.range' 90 21).flatMap (fun (buy : ℕ) =>
            generate_pattern_3 log ((i : ℕ) : ℚ) (setBuy prices (buy : ℚ))) := by
          simpa using hgi.symm
        rw [hgen2] at hg
        rw [List.mem_flatMap] at hg
        obtain ⟨buy, _, hmem⟩ := hg
        rw [hpn]
        exact mem_generate_pattern_3 _ _ _ g hmem

unseal Rat.add Rat.inv Rat.mul Rat.sub in
/-- C3 witness: on a buy price of 100 with all sells missing, the very
first fudge factor 0 already generates scenarios, and the analysis
post-processes exactly that generation. -/
theorem fudge_escalation_wit :
    ∃ l, generate_possibilities (fun _ => 0) ((0 : ℕ) : ℚ)
        (some 100 :: some 100 :: List.replicate 12 (none : Option ℚ)) false .undef =
          .ok l ∧ l ≠ [] ∧
      chosenPossibilities (fun _ => 0)
        (some 100 :: some 100 :: List.replicate 12 (none : Option ℚ)) false .undef = .ok l ∧
      analyzePossibilities (fun _ => 0)
        (some 100 :: some 100 :: List.replicate 12 (none : Option ℚ)) false .undef =
        .ok (postProcess l) := by
  have h : ∃ F, F ≤ 5 ∧ genNonempty (fun _ => 0)
      (some 100 :: some 100 :: List.replicate 12 (none : Option ℚ)) false .undef F = true :=
    ⟨0, by norm_num, by decide⟩
  obtain ⟨l, h1, h2, h3, h4, _⟩ := fudge_escalation (fun _ => 0)
    (some 100 :: some 100 :: List.replicate 12 (none : Option ℚ)) false .undef h
  have hf0 : Nat.find h = 0 := by
    rw [Nat.find_eq_zero]
    exact ⟨by norm_num, by decide⟩
  rw [hf0] at h1
  exact ⟨l, h1, h2, h3, h4⟩

unseal Rat.add Rat.inv Rat.mul Rat.sub in
/-- C2 witness: on a buy price of 100 with all sells missing, generation
at fudge 0 is nonempty with well-formed slots, so every returned record,
the ALL row included, satisfies the week invariant. -/
theorem analyze_week_min_le_max_wit :
    ((analyzePossibilities (fun _ => 0)
        (some 100 :: some 100 :: List.replicate 12 (none : Option ℚ)) false .undef).toOption.getD
          []) ≠ [] ∧
    ∀ r ∈ ((analyzePossibilities (fun _ => 0)
        (some 100 :: some 100 :: List.replicate 12 (none : Option ℚ)) false .undef).toOption.getD
          []),
      r.weekGuaranteedMinimum ≤ r.weekMax := by
  obtain ⟨gen, hgen⟩ := fudgeGo_ok
    (fun i => generate_possibilities (fun _ => 0) ((i : ℕ) : ℚ)
      (some 100 :: some 100 :: List.replicate 12 (none : Option ℚ)) false .undef)
    [0, 1, 2, 3, 4, 5]
    (fun i _ => (generate_possibilities_isOk (fun _ => 0) ((i : ℕ) : ℚ)
      (some 100 :: some 100 :: List.replicate 12 (none : Option ℚ)) false .undef).mpr
      (Or.inr rfl))
  have hgen2 : chosenPossibilities (fun _ => 0)
      (some 100 :: some 100 :: List.replicate 12 (none : Option ℚ)) false .undef = .ok gen :=
    hgen
  have hout : analyzePossibilities (fun _ => 0)
      (some 100 :: some 100 :: List.replicate 12 (none : Option ℚ)) false .undef =
      .ok (postProcess gen) := by
    unfold analyzePossibilities
    rw [hgen2]
  have hgeq : gen = (chosenPossibilities (fun _ => 0)
      (some 100 :: some 100 :: List.replicate 12 (none : Option ℚ)) false
        .undef).toOption.getD [] := by
    rw [hgen2]
    rfl
  have hne : gen ≠ [] := by rw [hgeq]; decide
  have hmm : ∀ s ∈ gen, ∀ mm ∈ s.prices, mm.min ≤ mm.max := by rw [hgeq]; decide
  have heq : (analyzePossibilities (fun _ => 0)
      (some 100 :: some 100 :: List.replicate 12 (none : Option ℚ)) false
        .undef).toOption.getD [] = postProcess gen := by
    rw [hout]
    rfl
  constructor
  · rw [heq]
    simp [postProcess]
  · intro r hr
    rw [heq] at hr
    exact analyze_week_min_le_max (fun _ => 0)
      (some 100 :: some 100 :: List.replicate 12 (none : Option ℚ)) false .undef
      gen (postProcess gen) hgen2 hne hmm hout r hr

unseal Rat.add Rat.inv Rat.mul Rat.sub in
/-- C2 counterexample: with buy 100 and the impossible sell 9999 in
slot 2, every pattern is refuted at every fudge factor 0..5, and the
returned list is the ALL row alone with weekGuaranteedMinimum = plus
infinity and weekMax = minus infinity — the claimed inequality fails. -/
theorem analyze_week_min_le_max_cex :
    (analyzePossibilities (fun _ => 0)
      (some 100 :: some 100 :: some 9999 :: List.replicate 11 (none : Option ℚ)) false
        .undef).toOption =
      some [allRowOf []] ∧
    (allRowOf []).weekGuaranteedMinimum = (⊤ : ExtQ) ∧
    (allRowOf []).weekMax = (⊥ : ExtQ) ∧
    ¬((allRowOf []).weekGuaranteedMinimum ≤ (allRowOf []).weekMax) := by
  have hch0 : (chosenPossibilities (fun _ => 0)
      (some 100 :: some 100 :: some 9999 :: List.replicate 11 (none : Option ℚ)) false
        .undef).toOption = some [] := by decide
  have hch : chosenPossibilities (fun _ => 0)
      (some 100 :: some 100 :: some 9999 :: List.replicate 11 (none : Option ℚ)) false
        .undef = .ok [] := by
    cases hc : chosenPossibilities (fun _ => 0)
        (some 100 :: some 100 :: some 9999 :: List.replicate 11 (none : Option ℚ)) false
          .undef with
    | ok l =>
      rw [hc] at hch0
      have : l = [] := by simpa [Except.toOption] using hch0
      rw [this]
    | error e =>
      rw [hc] at hch0
      exact absurd hch0 (by simp [Except.toOption])
  have hsorted : sortedOf ([] : List Scenario) = [] := by
    simp [sortedOf, stampedOf, withWeekOf, normalizeScens, List.mergeSort_nil]
  have hpost : postProcess ([] : List Scenario) = [allRowOf []] := by
    rw [postProcess, hsorted]
  refine ⟨?_, by decide, by decide, by decide⟩
  unfold analyzePossibilities
  rw [hch]
  show (Except.ok (postProcess ([] : List Scenario))).toOption = some [allRowOf []]
  rw [hpost]
  rfl

unseal Rat.add Rat.inv Rat.mul Rat.sub in
/-- C4 witness: with all 14 observations missing and firstBuy set, the
analysis is identical for undefined and null previous patterns, the
generation is exactly the 21-way buy enumeration of pattern 3, and every
returned record after the ALL row has pattern number 3. -/
theorem firstBuy_pattern3_only_wit :
    analyzePossibilities (fun _ => 0) (List.replicate 14 (none : Option ℚ)) true .undef =
      analyzePossibilities (fun _ => 0) (List.replicate 14 (none : Option ℚ)) true .null ∧
    generate_possibilities (fun _ => 0) 0 (List.replicate 14 (none : Option ℚ)) true .undef =
      .ok ((List.range' 90 21).flatMap (fun (buy : ℕ) =>
        generate_pattern_3 (fun _ => 0) 0 (setBuy (List.replicate 14 (none : Option ℚ))
          (buy : ℚ)))) ∧
    ∀ r ∈ ((analyzePossibilities (fun _ => 0) (List.replicate 14 (none : Option ℚ)) true
        .undef).toOption.getD []).tail,
      r.patternNumber = 3 := by
  refine ⟨(firstBuy_pattern3_only (fun _ => 0) (List.replicate 14 (none : Option ℚ))
      .undef .null).1,
    (firstBuy_pattern3_only (fun _ => 0) (List.replicate 14 (none : Option ℚ))
      .undef .null).2.1 0, ?_⟩
  obtain ⟨gen, hgen⟩ := fudgeGo_ok
    (fun i => generate_possibilities (fun _ => 0) ((i : ℕ) : ℚ)
      (List.replicate 14 (none : Option ℚ)) true .undef)
    [0, 1, 2, 3, 4, 5]
    (fun i _ => (generate_possibilities_isOk (fun _ => 0) ((i : ℕ) : ℚ)
      (List.replicate 14 (none : Option ℚ)) true .undef).mpr (Or.inl rfl))
  have hgen2 : chosenPossibilities (fun _ => 0) (List.replicate 14 (none : Option ℚ)) true
      .undef = .ok gen := hgen
  have hout : analyzePossibilities (fun _ => 0) (List.replicate 14 (none : Option ℚ)) true
      .undef = .ok (postProcess gen) := by
    unfold analyzePossibilities
    rw [hgen2]
  intro r hr
  have heq : (analyzePossibilities (fun _ => 0) (List.replicate 14 (none : Option ℚ)) true
      .undef).toOption.getD [] = postProcess gen := by
    rw [hout]
    rfl
  rw [heq] at hr
  exact (firstBuy_pattern3_only (fun _ => 0) (List.replicate 14 (none : Option ℚ))
    .undef .null).2.2 (postProcess gen) hout r hr

end ACNH
